import Mathlib

/-!
Verification of the TRM iteration engine (code_trm_python_mcp).

Shallow embedding of the scoring module (`src/utils/scoring.py`), the output
parsers (`src/utils/parser.py`), the evaluation pipeline state update
(`src/tools/handlers/lib/evaluation.py`), the parameter translator
(`src/tools/param_translator.py`), the availability probe
(`src/utils/command.py`) and the file-read path handling (`src/server.py`).

Modelling conventions:
* Python `float` arithmetic is modelled by exact rationals (`ℚ`);
  Python `int` by `ℤ`; optional values (`None`) by `Option`.
* Human-readable feedback / reason strings that interpolate formatted
  numbers are modelled by inductive message values carrying exactly the
  data interpolated into the source f-strings.
* Subprocess execution and `which` lookups are I/O; they enter the
  embedding as parameters (probe outcomes, a `String → Bool` PATH oracle).
-/

namespace TRM

/-- `WeightsConfig` from `src/types.py` (four reals, defaults 0.3/0.4/0.1/0.2). -/
structure WeightsConfig where
  data_quality : ℚ
  test : ℚ
  lint : ℚ
  perf : ℚ
  deriving Repr, DecidableEq

/-- `HaltConfig` from `src/types.py`. -/
structure HaltConfig where
  max_steps : ℤ
  pass_threshold : ℚ
  patience_no_improve : ℤ
  min_steps : ℤ
  deriving Repr, DecidableEq

/-- `TestResults` from `src/types.py` as consumed by the scoring module
(integer counts; the ancillary `raw` string is omitted as it never
influences scoring or state). -/
structure TestResults where
  passed : ℤ
  failed : ℤ
  total : ℤ
  deriving Repr, DecidableEq

/-- `PerfResults` from `src/types.py`. -/
structure PerfResults where
  value : ℚ
  unit : Option String
  deriving Repr, DecidableEq

/-- `calculate_weighted_score` from `src/utils/scoring.py` lines 7-67:
builds the `components` list and `total_weight` accumulator signal by
signal in source order, then divides (returning 0 when `total_weight`
is 0). -/
def calculate_weighted_score (ok_data_quality : Option Bool) (ok_lint : Option Bool)
    (tests : Option TestResults) (perf : Option PerfResults)
    (weights : WeightsConfig) (best_perf : Option ℚ) : ℚ :=
  let acc : List ℚ × ℚ := ([], 0)
  -- Data quality signal
  let acc := match ok_data_quality with
    | some b =>
        (acc.1 ++ [weights.data_quality * (if b then 1 else 0)], acc.2 + weights.data_quality)
    | none => acc
  -- Test signal
  let acc := match tests with
    | some t =>
        if t.total > 0 then
          (acc.1 ++ [weights.test * ((t.passed : ℚ) / (t.total : ℚ))], acc.2 + weights.test)
        else acc
    | none => acc
  -- Lint signal
  let acc := match ok_lint with
    | some b => (acc.1 ++ [weights.lint * (if b then 1 else 0)], acc.2 + weights.lint)
    | none => acc
  -- Performance signal (normalized: best/current, lower runtime is better)
  let acc := match perf with
    | some p =>
        if p.value > 0 then
          let s_perf : ℚ := match best_perf with
            | some b => if b > 0 then min 1 (b / p.value) else 1
            | none => 1
          (acc.1 ++ [weights.perf * s_perf], acc.2 + weights.perf)
        else acc
    | none => acc
  if acc.2 = 0 then 0 else acc.1.sum / acc.2

/-- `update_ema_score` from `src/utils/scoring.py` lines 70-88. -/
def update_ema_score (current_score : ℚ) (prev_ema : ℚ) (alpha : ℚ) : ℚ :=
  alpha * current_score + (1 - alpha) * prev_ema

/-- The reason strings appended by `should_halt_iteration`
(`src/utils/scoring.py` lines 124-147), modelled as tagged values carrying
exactly the data interpolated into the source f-strings. -/
inductive HaltMessage where
  | success (score : ℚ) (pass_threshold : ℚ)
  | plateau (no_improve_streak : ℤ) (patience : ℤ)
  | limit (max_steps : ℤ)
  | continueIter (step : ℤ) (max_steps : ℤ) (score : ℚ) (ema : ℚ)
  deriving Repr, DecidableEq

/-- `should_halt_iteration` from `src/utils/scoring.py` lines 91-147:
three early-return conditions checked in source order, each appending a
single reason message. -/
def should_halt_iteration (step : ℤ) (score : ℚ) (ema_score : ℚ)
    (no_improve_streak : ℤ) (tests_passed : Bool)
    (max_steps : ℤ) (pass_threshold : ℚ) (patience_no_improve : ℤ)
    (min_steps : ℤ := 1) : Bool × List HaltMessage :=
  let reasons : List HaltMessage := []
  -- Condition 1: Success
  if step ≥ min_steps ∧ tests_passed ∧ score ≥ pass_threshold then
    (true, reasons ++ [HaltMessage.success score pass_threshold])
  -- Condition 2: Plateau (no improvement)
  else if no_improve_streak ≥ patience_no_improve then
    (true, reasons ++ [HaltMessage.plateau no_improve_streak patience_no_improve])
  -- Condition 3: Max steps reached
  else if step ≥ max_steps then
    (true, reasons ++ [HaltMessage.limit max_steps])
  -- Continue iterating
  else
    (false, reasons ++ [HaltMessage.continueIter step max_steps score ema_score])

/-- `EvalResult` from `src/types.py`, restricted to the fields that drive
session state and halting (the presentation-only `feedback` string list,
`raw` strings and `mode_suggestion` are omitted). -/
structure EvalResult where
  ok_data_quality : Option Bool
  ok_lint : Option Bool
  tests : Option TestResults
  perf : Option PerfResults
  score : ℚ
  ema_score : ℚ
  step : ℤ
  should_halt : Bool
  reasons : List HaltMessage
  deriving Repr, DecidableEq

/-- The part of `SessionConfig` (`src/types.py`) that feeds the evaluation
state update: `weights` and `halt`. Which probes are configured (the four
command strings) is reflected in which `EvalInput` signals are present. -/
structure SessionConfig where
  weights : WeightsConfig
  halt : HaltConfig
  deriving Repr, DecidableEq

/-- The mutable iteration state of `SessionState` (`src/types.py`):
`step`, `best_score`, `ema_score`, `ema_alpha`, `no_improve_streak`,
`best_perf`, `history`, plus the immutable `cfg`. -/
structure SessionState where
  cfg : SessionConfig
  step : ℤ
  best_score : ℚ
  ema_score : ℚ
  ema_alpha : ℚ
  no_improve_streak : ℤ
  best_perf : Option ℚ
  history : List EvalResult
  deriving Repr, DecidableEq

/-- The per-evaluation external inputs to `run_evaluation`
(`src/tools/handlers/lib/evaluation.py`): the outcome of each configured
probe after parsing. `none` means the probe is unconfigured, or (for
`tests` / `perfValue`) that its output parser returned `None` — the two
cases flow identically through lines 113-189 of the source. -/
structure EvalInput where
  ok_data_quality : Option Bool
  ok_lint : Option Bool
  tests : Option TestResults
  perfValue : Option ℚ
  deriving Repr, DecidableEq

/-- The `best_perf` update of `run_evaluation`
(`src/tools/handlers/lib/evaluation.py` lines 117-125), for a parsed
value `v`. In the source, `session.best_perf = perf_value` sits inside
the `if session.best_perf is not None:` block that builds the
improvement feedback note, itself inside the
`if session.best_perf is None or perf_value < session.best_perf:`
branch — so a `None` prior best is never replaced. -/
def updateBestPerf (best_perf : Option ℚ) (v : ℚ) : Option ℚ :=
  if best_perf = none ∨ v < best_perf.getD 0 then
    if best_perf ≠ none then some v else best_perf
  else best_perf

/-- The state update performed by one completed `run_evaluation`
(`src/tools/handlers/lib/evaluation.py` lines 101-191), with the probe
subprocess outcomes supplied as `EvalInput`. Returns the updated session
and the appended `EvalResult`. -/
def evalStep (session : SessionState) (inp : EvalInput) : SessionState × EvalResult :=
  -- 4. performance benchmark: attach {value, unit:"seconds"}, update best_perf
  let best_perf : Option ℚ := match inp.perfValue with
    | some v => updateBestPerf session.best_perf v
    | none => session.best_perf
  let perf : Option PerfResults := inp.perfValue.map (fun v => ⟨v, some "seconds"⟩)
  -- Calculate weighted score (uses the already-mutated session.best_perf)
  let score := calculate_weighted_score inp.ok_data_quality inp.ok_lint inp.tests perf
    session.cfg.weights best_perf
  -- Update EMA score
  let ema_score := update_ema_score score
    (if session.step > 0 then session.ema_score else score) session.ema_alpha
  -- Increment step
  let new_step := session.step + 1
  -- Update improvement streak
  let sb : ℤ × ℚ :=
    if score > session.best_score then (0, score)
    else (session.no_improve_streak + 1, session.best_score)
  let no_improve_streak := sb.1
  let best_score := sb.2
  -- Check halting condition (`... if tests else False`)
  let tests_passed : Bool := match inp.tests with
    | some t => decide (t.failed = 0)
    | none => false
  let halted := should_halt_iteration new_step score ema_score no_improve_streak tests_passed
    session.cfg.halt.max_steps session.cfg.halt.pass_threshold
    session.cfg.halt.patience_no_improve session.cfg.halt.min_steps
  let eval_result : EvalResult :=
    ⟨inp.ok_data_quality, inp.ok_lint, inp.tests, perf, score, ema_score, new_step,
      halted.1, halted.2⟩
  ({ session with
      step := new_step
      ema_score := ema_score
      no_improve_streak := no_improve_streak
      best_score := best_score
      best_perf := best_perf
      history := session.history ++ [eval_result] },
   eval_result)

/-- The iteration state of a fresh session as built by `create_session`
(`src/shared/sessions.py`): step 0, best_score 0.0, ema_score 0.0,
no_improve_streak 0, best_perf None, empty history. -/
def initSession (cfg : SessionConfig) (ema_alpha : ℚ) : SessionState :=
  { cfg := cfg
    step := 0
    best_score := 0
    ema_score := 0
    ema_alpha := ema_alpha
    no_improve_streak := 0
    best_perf := none
    history := [] }

/-- A session after a sequence of completed evaluations, starting from a
fresh session. -/
def runTrace (cfg : SessionConfig) (ema_alpha : ℚ) (inputs : List EvalInput) : SessionState :=
  inputs.foldl (fun s i => (evalStep s i).1) (initSession cfg ema_alpha)

/-! ## JSON values and a model of Python `json.loads`

The parsers in `src/utils/parser.py` first try `json.loads` on their raw
input. `Json` models the decoded Python value; `jsonLoads` models
`json.loads` (returning `none` for `JSONDecodeError`) on standard JSON:
null / booleans / numbers (with fraction and exponent) / strings with the
common escapes / arrays / objects. It agrees with CPython `json.loads` on
every concrete input evaluated in the theorems below. -/

inductive Json where
  | null
  | jbool (b : Bool)
  | num (q : ℚ)
  | str (s : String)
  | arr (xs : List Json)
  | obj (kvs : List (String × Json))
  deriving Repr

/-- The double-quote character. -/
def qChar : Char := Char.ofNat 34

/-- The backslash character. -/
def bsChar : Char := Char.ofNat 92

/-- The opening-brace character. -/
def obChar : Char := Char.ofNat 123

/-- The closing-brace character. -/
def cbChar : Char := Char.ofNat 125

/-- JSON inter-token whitespace. -/
def jsonWs (c : Char) : Bool := c = ' ' || c = '\t' || c = '\n' || c = '\r'

/-- Digit run of a character list. -/
def takeDigits (cs : List Char) : List Char × List Char :=
  (cs.takeWhile Char.isDigit, cs.dropWhile Char.isDigit)

/-- Numeric value of a digit run. -/
def digitsToNat (ds : List Char) : ℕ :=
  ds.foldl (fun a c => a * 10 + (c.toNat - 48)) 0

/-- Apply a decimal exponent suffix (digits after `e`/`e+`/`e-`); when no
digits follow, the exponent marker is left unconsumed. -/
def expApply (v : ℚ) (negE : Bool) (cs : List Char) (fallback : List Char) : ℚ × List Char :=
  match takeDigits cs with
  | ([], _) => (v, fallback)
  | (es, r) =>
      let e := digitsToNat es
      (if negE then v / ((10 : ℚ) ^ e) else v * ((10 : ℚ) ^ e), r)

/-- Parse a JSON number (sign, integer part, optional fraction, optional
exponent), returning its exact rational value and the unconsumed rest. -/
def parseJsonNumber (cs : List Char) : Option (ℚ × List Char) :=
  let sp : ℚ × List Char := match cs with
    | '-' :: r => (-1, r)
    | _ => (1, cs)
  match takeDigits sp.2 with
  | ([], _) => none
  | (ds, r1) =>
      let ip : ℚ := (digitsToNat ds : ℚ)
      let fr : ℚ × List Char := match r1 with
        | '.' :: r2 =>
            match takeDigits r2 with
            | ([], _) => (ip, r1)
            | (fs, r3) => (ip + (digitsToNat fs : ℚ) / ((10 : ℚ) ^ fs.length), r3)
        | _ => (ip, r1)
      let ex : ℚ × List Char := match fr.2 with
        | c :: r4 =>
            if c = 'e' ∨ c = 'E' then
              match r4 with
              | '+' :: r5 => expApply fr.1 false r5 fr.2
              | '-' :: r5 => expApply fr.1 true r5 fr.2
              | _ => expApply fr.1 false r4 fr.2
            else (fr.1, fr.2)
        | [] => (fr.1, fr.2)
      some (sp.1 * ex.1, ex.2)

/-- Map a JSON string escape character to the character it denotes. -/
def escMap (c : Char) : Option Char :=
  if c = qChar then some qChar
  else if c = bsChar then some bsChar
  else if c = '/' then some '/'
  else if c = 'n' then some '\n'
  else if c = 't' then some '\t'
  else if c = 'r' then some '\r'
  else if c = 'b' then some (Char.ofNat 8)
  else if c = 'f' then some (Char.ofNat 12)
  else none

/-- Parse the body of a JSON string after the opening quote. -/
def parseJsonStringAux : List Char → List Char → Option (List Char × List Char)
  | _, [] => none
  | acc, c :: cs =>
    if c = qChar then some (acc.reverse, cs)
    else if c = bsChar then
      match cs with
      | [] => none
      | e :: cs2 =>
          match escMap e with
          | some ch => parseJsonStringAux (ch :: acc) cs2
          | none => none
    else parseJsonStringAux (c :: acc) cs

mutual

/-- Parse one JSON value (fuel-bounded recursion into containers). -/
def parseJsonValue : ℕ → List Char → Option (Json × List Char)
  | 0, _ => none
  | Nat.succ fuel, cs =>
    match cs.dropWhile jsonWs with
    | 'n' :: 'u' :: 'l' :: 'l' :: r => some (Json.null, r)
    | 't' :: 'r' :: 'u' :: 'e' :: r => some (Json.jbool true, r)
    | 'f' :: 'a' :: 'l' :: 's' :: 'e' :: r => some (Json.jbool false, r)
    | c :: r =>
        if c = qChar then
          (parseJsonStringAux [] r).map (fun p => (Json.str (String.mk p.1), p.2))
        else if c = '[' then
          (parseJsonArray fuel r).map (fun p => (Json.arr p.1, p.2))
        else if c = obChar then
          (parseJsonObject fuel r).map (fun p => (Json.obj p.1, p.2))
        else
          (parseJsonNumber (c :: r)).map (fun p => (Json.num p.1, p.2))
    | [] => none

/-- Parse the items of a JSON array after the opening bracket. -/
def parseJsonArray : ℕ → List Char → Option (List Json × List Char)
  | 0, _ => none
  | Nat.succ fuel, cs =>
    match cs.dropWhile jsonWs with
    | ']' :: r => some ([], r)
    | rest =>
        match parseJsonValue fuel rest with
        | none => none
        | some (v, r1) =>
            match parseJsonArrayTail fuel r1 with
            | none => none
            | some (vs, r2) => some (v :: vs, r2)

/-- Parse `, value`* `]` after the first array item. -/
def parseJsonArrayTail : ℕ → List Char → Option (List Json × List Char)
  | 0, _ => none
  | Nat.succ fuel, cs =>
    match cs.dropWhile jsonWs with
    | ']' :: r => some ([], r)
    | ',' :: r =>
        match parseJsonValue fuel r with
        | none => none
        | some (v, r1) =>
            match parseJsonArrayTail fuel r1 with
            | none => none
            | some (vs, r2) => some (v :: vs, r2)
    | _ => none

/-- Parse the members of a JSON object after the opening brace. -/
def parseJsonObject : ℕ → List Char → Option (List (String × Json) × List Char)
  | 0, _ => none
  | Nat.succ fuel, cs =>
    match cs.dropWhile jsonWs with
    | c :: r =>
        if c = cbChar then some ([], r)
        else if c = qChar then
          match parseJsonMember fuel (c :: r) with
          | none => none
          | some (kv, r1) =>
              match parseJsonObjectTail fuel r1 with
              | none => none
              | some (kvs, r2) => some (kv :: kvs, r2)
        else none
    | [] => none

/-- Parse `, member`* and the closing brace after the first object member. -/
def parseJsonObjectTail : ℕ → List Char → Option (List (String × Json) × List Char)
  | 0, _ => none
  | Nat.succ fuel, cs =>
    match cs.dropWhile jsonWs with
    | ',' :: r =>
        match parseJsonMember fuel r with
        | none => none
        | some (kv, r1) =>
            match parseJsonObjectTail fuel r1 with
            | none => none
            | some (kvs, r2) => some (kv :: kvs, r2)
    | c :: r => if c = cbChar then some ([], r) else none
    | [] => none

/-- Parse one `"key": value` object member. -/
def parseJsonMember : ℕ → List Char → Option ((String × Json) × List Char)
  | 0, _ => none
  | Nat.succ fuel, cs =>
    match cs.dropWhile jsonWs with
    | c :: r =>
        if c = qChar then
          match parseJsonStringAux [] r with
          | none => none
          | some (key, r1) =>
              match r1.dropWhile jsonWs with
              | ':' :: r2 =>
                  match parseJsonValue fuel r2 with
                  | none => none
                  | some (v, r3) => some ((String.mk key, v), r3)
              | _ => none
        else none
    | [] => none

end

/-- Model of Python `json.loads`: parse one JSON document, demanding that
only whitespace remains; `none` models `json.JSONDecodeError`. -/
def jsonLoads (s : String) : Option Json :=
  match parseJsonValue (2 * s.length + 4) s.toList with
  | some (v, rest) => if (rest.dropWhile jsonWs).isEmpty then some v else none
  | none => none

/-! ## Python dynamic operations used by the parsers

`parse_pytest_output` applies `in`, `.get`, subscripting, `+` and
`float()` to the value decoded by `json.loads`. These operations raise on
the wrong dynamic type; the source's `except` clauses only catch
`json.JSONDecodeError`, `KeyError` (and, in `parse_performance_metric`,
`ValueError`), so the other exceptions escape. `PyErr` models the raised
exception class. -/

inductive PyErr where
  | typeError
  | attributeError
  | keyError
  | valueError
  deriving Repr, DecidableEq

/-- Bool-valued substring test on character lists. -/
def listHasSub (needle : List Char) : List Char → Bool
  | [] => needle.isEmpty
  | c :: rest => needle.isPrefixOf (c :: rest) || listHasSub needle rest

/-- Python `needle in data` for a string needle: key test on dicts,
substring test on strings, equality scan on lists, `TypeError`
otherwise. -/
def pyIn (needle : String) (data : Json) : Except PyErr Bool :=
  match data with
  | Json.obj kvs => .ok (kvs.any (fun kv => kv.1 == needle))
  | Json.str s => .ok (listHasSub needle.toList s.toList)
  | Json.arr xs =>
      .ok (xs.any (fun x => match x with
        | Json.str s => s == needle
        | _ => false))
  | _ => .error PyErr.typeError

/-- Python `data.get(key, default)`: defined on dicts (later duplicate
keys shadow earlier ones), `AttributeError` otherwise. -/
def pyGet (data : Json) (key : String) (dflt : Json) : Except PyErr Json :=
  match data with
  | Json.obj kvs =>
      match kvs.reverse.find? (fun kv => kv.1 == key) with
      | some kv => .ok kv.2
      | none => .ok dflt
  | _ => .error PyErr.attributeError

/-- Python `data[key]` for a string key: dict lookup (`KeyError` when
missing), `TypeError` on any non-dict value. -/
def pyIndex (data : Json) (key : String) : Except PyErr Json :=
  match data with
  | Json.obj kvs =>
      match kvs.reverse.find? (fun kv => kv.1 == key) with
      | some kv => .ok kv.2
      | none => .error PyErr.keyError
  | _ => .error PyErr.typeError

/-- Numeric view of a Python value for `+` (bools are ints in Python). -/
def pyToNum : Json → Option ℚ
  | Json.num q => some q
  | Json.jbool b => some (if b then 1 else 0)
  | _ => none

/-- Python `a + b`: numeric addition, string/list concatenation,
`TypeError` otherwise. -/
def pyAdd (a b : Json) : Except PyErr Json :=
  match pyToNum a, pyToNum b with
  | some x, some y => .ok (Json.num (x + y))
  | _, _ =>
      match a, b with
      | Json.str s, Json.str t => .ok (Json.str (s ++ t))
      | Json.arr xs, Json.arr ys => .ok (Json.arr (xs ++ ys))
      | _, _ => .error PyErr.typeError

/-- Python `float(str)`: optional surrounding whitespace and sign, then a
decimal with optional fraction and exponent; `none` models `ValueError`. -/
def parseFloatStr (s : String) : Option ℚ :=
  let cs := s.toList.dropWhile jsonWs
  let sp : ℚ × List Char := match cs with
    | '-' :: r => (-1, r)
    | '+' :: r => (1, r)
    | _ => (1, cs)
  match parseJsonNumber sp.2 with
  | some (q, rest) => if (rest.dropWhile jsonWs).isEmpty then some (sp.1 * q) else none
  | none => none

/-- Python `float(value)`: numbers and bools convert, strings parse
(`ValueError` on failure), other types raise `TypeError`. -/
def pyFloatOf : Json → Except PyErr ℚ
  | Json.num q => .ok q
  | Json.jbool b => .ok (if b then 1 else 0)
  | Json.str s =>
      match parseFloatStr s with
      | some q => .ok q
      | none => .error PyErr.valueError
  | _ => .error PyErr.typeError

/-! ## `parse_pytest_output` (`src/utils/parser.py` lines 9-59) -/

/-- `TestResults` as actually built by `parse_pytest_output`: in the JSON
branch the dataclass fields receive whatever Python values `data.get`
returned, unconverted. -/
structure TestResultsJ where
  passed : Json
  failed : Json
  total : Json
  raw : String
  deriving Repr

/-- The shared field extraction of both JSON branches:
`passed = src.get("passed", 0)`, `failed = src.get("failed", 0)`,
`total = src.get("total", passed + failed)` (the default expression is
evaluated eagerly, before the lookup). -/
def pytestFromMapping (src : Json) (raw : String) : Except PyErr TestResultsJ := do
  let passed ← pyGet src "passed" (Json.num 0)
  let failed ← pyGet src "failed" (Json.num 0)
  let dflt ← pyAdd passed failed
  let total ← pyGet src "total" dflt
  pure ⟨passed, failed, total, raw⟩

/-- The `try` block of `parse_pytest_output` applied to the `json.loads`
result: `ok (some r)` models a `return` from inside the block, `ok none`
models falling through (decode failure or neither key present), `error e`
models an exception escaping the block. -/
def pytestTryJson (decoded : Option Json) (raw : String) : Except PyErr (Option TestResultsJ) :=
  match decoded with
  | none => .ok none
  | some data => do
      if (← pyIn "tests" data) then
        let r ← pytestFromMapping data raw
        pure (some r)
      else if (← pyIn "summary" data) then
        let summary ← pyIndex data "summary"
        let r ← pytestFromMapping summary raw
        pure (some r)
      else
        pure none

/-- Match `(\d+)` immediately followed by the literal `lit` at the head of
`cs` (maximal digit run; `lit` starts with a non-digit). -/
def matchNumThenAt (lit : List Char) (cs : List Char) : Option ℕ :=
  match takeDigits cs with
  | ([], _) => none
  | (ds, r) => if lit.isPrefixOf r then some (digitsToNat ds) else none

/-- Leftmost `re.search` of the pattern `(\d+)` ++ `lit`, returning the
captured number. -/
def reSearchNumThen (lit : List Char) : List Char → Option ℕ
  | [] => none
  | c :: rest =>
      match matchNumThenAt lit (c :: rest) with
      | some n => some n
      | none => reSearchNumThen lit rest

/-- The text half of `parse_pytest_output`: the `(\d+) passed` /
`(\d+) failed` regexes with 0 defaults and `total = passed + failed`,
then the case-insensitive "no tests ran" / "no tests collected" test. -/
def pytestTextPart (output : String) : Option TestResultsJ :=
  let passedM := reSearchNumThen " passed".toList output.toList
  let failedM := reSearchNumThen " failed".toList output.toList
  if passedM.isSome || failedM.isSome then
    let passed : ℕ := passedM.getD 0
    let failed : ℕ := failedM.getD 0
    some ⟨Json.num passed, Json.num failed, Json.num ((passed : ℚ) + failed), output⟩
  else if listHasSub "no tests ran".toList output.toLower.toList ||
      listHasSub "no tests collected".toList output.toLower.toList then
    some ⟨Json.num 0, Json.num 0, Json.num 0, output⟩
  else none

/-- `parse_pytest_output` from `src/utils/parser.py` lines 9-59. The
`except (json.JSONDecodeError, KeyError)` clause only absorbs those two
exception classes; any other exception raised inside the `try` block
escapes to the caller (modelled by `Except.error`). -/
def parse_pytest_output (output : String) : Except PyErr (Option TestResultsJ) :=
  match pytestTryJson (jsonLoads output) output with
  | Except.error PyErr.keyError => .ok (pytestTextPart output)
  | Except.error e => .error e
  | Except.ok (some r) => .ok (some r)
  | Except.ok none => .ok (pytestTextPart output)

/-! ## `parse_performance_metric` (`src/utils/parser.py` lines 130-175)

The three unit regexes are searched with `re.IGNORECASE`. Note the second
pattern is written `r"(\d+(?:\.\d+)?)\s*s(?:ec(?:ond)?s?)?\\b"` in the
source: inside a raw string, `\\b` is a literal backslash followed by
`b`, not a word boundary, so the pattern only matches when the character
pair `\b` literally follows the unit. -/

/-- The key loop of the JSON branch:
`for key in ["time","duration","runtime","elapsed","seconds"]`. -/
def perfKeys : List String := ["time", "duration", "runtime", "elapsed", "seconds"]

/-- One pass of the JSON-branch loop body: membership test, subscript,
`float()`, and the `value if value < 10000 else value / 1000.0` return. -/
def perfJsonLoopCore (data : Json) : List String → Except PyErr (Option ℚ)
  | [] => .ok none
  | k :: ks => do
      if (← pyIn k data) then
        let raw ← pyIndex data k
        let value ← pyFloatOf raw
        pure (some (if value < 10000 then value else value / 1000))
      else
        perfJsonLoopCore data ks

/-- The JSON branch with its `except (json.JSONDecodeError, KeyError,
ValueError)` clause: those exceptions fall through to the regex branch
(`ok none`); `TypeError` escapes. -/
def perfJsonBranch (data : Json) : Except PyErr (Option ℚ) :=
  match perfJsonLoopCore data perfKeys with
  | Except.error PyErr.keyError => .ok none
  | Except.error PyErr.valueError => .ok none
  | r => r

/-- `\s` of Python `re` (ASCII range): space, tab, newline, carriage
return, vertical tab, form feed. -/
def regexWs (c : Char) : Bool :=
  c = ' ' || c = '\t' || c = '\n' || c = '\r' || c = Char.ofNat 11 || c = Char.ofNat 12

/-- `(\d+(?:\.\d+)?)` at the head of `cs`: maximal digit run and optional
fraction, returning the captured value and the rest. -/
def numToken (cs : List Char) : Option (ℚ × List Char) :=
  match takeDigits cs with
  | ([], _) => none
  | (ds, r1) =>
      match r1 with
      | '.' :: r2 =>
          match takeDigits r2 with
          | ([], _) => some ((digitsToNat ds : ℚ), r1)
          | (fs, r3) => some ((digitsToNat ds : ℚ) + (digitsToNat fs : ℚ) / ((10 : ℚ) ^ fs.length), r3)
      | _ => some ((digitsToNat ds : ℚ), r1)

/-- Case-insensitive single-character comparison (for `re.IGNORECASE`). -/
def lowEq (c : Char) (target : Char) : Bool := c.toLower = target

/-- Drop a literal pattern case-insensitively, returning the rest. -/
def dropCaseless : List Char → List Char → Option (List Char)
  | [], cs => some cs
  | _ :: _, [] => none
  | p :: ps, c :: cs => if c.toLower = p.toLower then dropCaseless ps cs else none

/-- The unit tail of the first pattern: literal `ms` (case-insensitive). -/
def unitMs : List Char → Bool
  | m :: s :: _ => lowEq m 'm' && lowEq s 's'
  | _ => false

/-- The alternatives generated by `(?:ec(?:ond)?s?)?`. -/
def secOptions : List (List Char) :=
  ["econds".toList, "econd".toList, "ecs".toList, "ec".toList, []]

/-- The unit tail of the second pattern: `s(?:ec(?:ond)?s?)?` followed by
the LITERAL two characters `\` and `b` (see the section comment). -/
def unitSecondsLit (cs : List Char) : Bool :=
  match cs with
  | s :: rest =>
      lowEq s 's' && secOptions.any (fun o =>
        match dropCaseless o rest with
        | some r2 =>
            match r2 with
            | x :: y :: _ => x = bsChar && lowEq y 'b'
            | _ => false
        | none => false)
  | [] => false

/-- The unit tail of the third pattern: `m(?:in(?:ute)?s?)?` — only the
`m` is required. -/
def unitMinutes : List Char → Bool
  | m :: _ => lowEq m 'm'
  | [] => false

/-- Leftmost `re.search` of `(\d+(?:\.\d+)?)\s*` ++ unit tail, returning
the captured number. (For these patterns maximal-munch equals the
backtracking semantics: every unit tail starts with a non-digit,
non-whitespace, non-dot character.) -/
def searchUnitPat (unit : List Char → Bool) : List Char → Option ℚ
  | [] => none
  | c :: rest =>
      match numToken (c :: rest) with
      | some (q, r) =>
          if unit (r.dropWhile regexWs) then some q else searchUnitPat unit rest
      | none => searchUnitPat unit rest

/-- One line against `^\s*(\d+(?:\.\d+)?)\s*$`. -/
def standaloneLine (line : String) : Option ℚ :=
  match numToken (line.toList.dropWhile regexWs) with
  | some (q, r) => if (r.dropWhile regexWs).isEmpty then some q else none
  | none => none

/-- `re.search(r"^\s*(\d+(?:\.\d+)?)\s*$", output, re.MULTILINE)`: the
first line consisting of a number amid whitespace. (`^`/`$` anchor at
newlines, and the `\s*` context makes per-line matching equivalent.) -/
def standaloneSearch (output : String) : Option ℚ :=
  (output.splitOn "\n").findSome? standaloneLine

/-- The regex half of `parse_performance_metric`: the three
`(pattern, multiplier)` pairs tried in order (`0.001`, `1.0`, `60.0`),
then the standalone-number fallback. -/
def perfTextParse (output : String) : Option ℚ :=
  match searchUnitPat unitMs output.toList with
  | some v => some (v * (1 / 1000))
  | none =>
      match searchUnitPat unitSecondsLit output.toList with
      | some v => some (v * 1)
      | none =>
          match searchUnitPat unitMinutes output.toList with
          | some v => some (v * 60)
          | none => standaloneSearch output

/-- `parse_performance_metric` from `src/utils/parser.py` lines 130-175.
Returns seconds (`ok (some v)`), `ok none` when nothing parses, or a
raised exception (`TypeError` escapes its `except` clause). -/
def parse_performance_metric (output : String) : Except PyErr (Option ℚ) :=
  match jsonLoads output with
  | some data =>
      match perfJsonBranch data with
      | Except.error e => .error e
      | Except.ok (some v) => .ok (some v)
      | Except.ok none => .ok (perfTextParse output)
  | none => .ok (perfTextParse output)

/-! ## `check_command_available` (`src/utils/command.py` lines 88-110)

Running `which` is I/O; it enters the embedding as the oracle
`onPath : String → Bool` (true iff `subprocess.run(["which", name])`
exits 0). The embedded function captures which name the source hands to
`which`, and that the `IndexError` from `cmd.split()[0]` on an all-space
string is absorbed by the `except` clause (returning `False`). -/

/-- Whitespace for Python `str.split()` with no argument (ASCII range):
space, tab, newline, carriage return, vertical tab, form feed. -/
def pyStrWs (c : Char) : Bool :=
  c = ' ' || c = '\t' || c = '\n' || c = '\r' || c = Char.ofNat 11 || c = Char.ofNat 12

/-- Python `s.split()`: split on whitespace runs, discarding empties. -/
def pySplitWsAux : List Char → List Char → List String
  | acc, [] => if acc.isEmpty then [] else [String.mk acc.reverse]
  | acc, c :: cs =>
    if pyStrWs c then
      if acc.isEmpty then pySplitWsAux [] cs
      else String.mk acc.reverse :: pySplitWsAux [] cs
    else pySplitWsAux (c :: acc) cs

/-- Python `s.split()` on a string. -/
def pySplitWs (s : String) : List String := pySplitWsAux [] s.toList

/-- The first whitespace-delimited token of a command string — the
name the SPEC says `check_available` probes. -/
def firstToken (cmd : String) : Option String := (pySplitWs cmd).head?

/-- `check_command_available` from `src/utils/command.py` lines 88-110:
`cmd_name = cmd.split()[0] if " " in cmd else cmd`, then `which cmd_name`;
any exception (e.g. the `IndexError` when the split is empty) yields
`False`. -/
def check_command_available (onPath : String → Bool) (cmd : String) : Bool :=
  if cmd.contains ' ' then
    match pySplitWs cmd with
    | [] => false
    | n :: _ => onPath n
  else onPath cmd

/-! ## Parameter translation (`src/tools/param_translator.py`)

Argument objects are modelled per operation as records of optional
fields; `none` is a key that is absent (or carries JSON `null` — the two
are indistinguishable to `dict.get`). Numeric JSON values are `ℚ`. -/

/-- The short-name `weights` object of `trm.start`. -/
structure WeightsShort where
  dataQual : Option ℚ
  test : Option ℚ
  lint : Option ℚ
  perf : Option ℚ
  deriving Repr, DecidableEq

/-- The short-name `halt` object of `trm.start`. -/
structure HaltShort where
  max : Option ℚ
  threshold : Option ℚ
  patience : Option ℚ
  min : Option ℚ
  deriving Repr, DecidableEq

/-- The short-name argument object of `trm.start`. -/
structure StartShort where
  repo : Option String
  dataQual : Option String
  test : Option String
  lint : Option String
  bench : Option String
  timeout : Option ℚ
  ema : Option ℚ
  notes : Option String
  weights : Option WeightsShort
  halt : Option HaltShort
  deriving Repr, DecidableEq

/-- The long-name `weights` dict built by `_translate_start` (every field
present, defaults filled). -/
structure WeightsLong where
  data_quality : ℚ
  test : ℚ
  lint : ℚ
  perf : ℚ
  deriving Repr, DecidableEq

/-- The long-name `halt` dict built by `_translate_start` (every field
present, defaults filled). -/
structure HaltLong where
  max_steps : ℚ
  pass_threshold : ℚ
  patience_no_improve : ℚ
  min_steps : ℚ
  deriving Repr, DecidableEq

/-- The long-name dict built by `_translate_start` after its final
`None`-removal comprehension: string-valued keys are dropped when their
short source is absent; `timeout_sec` and `ema_alpha` always survive
because their defaults are not `None`; `weights` / `halt` are present
exactly when the short key was. -/
structure StartLong where
  repo_path : Option String
  data_quality_cmd : Option String
  test_cmd : Option String
  lint_cmd : Option String
  perf_cmd : Option String
  timeout_sec : ℚ
  z_notes : Option String
  ema_alpha : ℚ
  weights : Option WeightsLong
  halt : Option HaltLong
  deriving Repr, DecidableEq

/-- `_translate_start` from `src/tools/param_translator.py` lines 37-71. -/
def translateStart (args : StartShort) : StartLong :=
  { repo_path := args.repo
    data_quality_cmd := args.dataQual
    test_cmd := args.test
    lint_cmd := args.lint
    perf_cmd := args.bench
    timeout_sec := args.timeout.getD 120
    z_notes := args.notes
    ema_alpha := args.ema.getD (9 / 10)
    weights := args.weights.map (fun w =>
      { data_quality := w.dataQual.getD (3 / 10)
        test := w.test.getD (4 / 10)
        lint := w.lint.getD (1 / 10)
        perf := w.perf.getD (2 / 10) })
    halt := args.halt.map (fun h =>
      { max_steps := h.max.getD 12
        pass_threshold := h.threshold.getD (95 / 100)
        patience_no_improve := h.patience.getD 3
        min_steps := h.min.getD 1 }) }

/-- The short-name argument object of `trm.submit` (the structured
`candidate` payload is opaque to the translator). -/
structure SubmitShort where
  sid : Option String
  candidate : Option Json
  reason : Option String
  deriving Repr

/-- The long-name dict built by `_translate_submit` (lines 74-80; no
`None`-removal). -/
structure SubmitLong where
  session_id : Option String
  candidate : Option Json
  rationale : Option String
  deriving Repr

/-- `_translate_submit` from `src/tools/param_translator.py`. -/
def translateSubmit (args : SubmitShort) : SubmitLong :=
  { session_id := args.sid
    candidate := args.candidate
    rationale := args.reason }

/-- The inverse key mapping of §6 of the spec (`repo_path→repo`, …,
`max_steps→max`, …) applied to a translated `start` object: pure key
renaming, values untouched. -/
def invStart (t : StartLong) : StartShort :=
  { repo := t.repo_path
    dataQual := t.data_quality_cmd
    test := t.test_cmd
    lint := t.lint_cmd
    bench := t.perf_cmd
    timeout := some t.timeout_sec
    ema := some t.ema_alpha
    notes := t.z_notes
    weights := t.weights.map (fun w =>
      { dataQual := some w.data_quality
        test := some w.test
        lint := some w.lint
        perf := some w.perf })
    halt := t.halt.map (fun h =>
      { max := some h.max_steps
        threshold := some h.pass_threshold
        patience := some h.patience_no_improve
        min := some h.min_steps }) }

/-- The inverse key mapping for `submit` (`session_id→sid`,
`rationale→reason`). -/
def invSubmit (t : SubmitLong) : SubmitShort :=
  { sid := t.session_id
    candidate := t.candidate
    reason := t.rationale }

/-! ## File reads (`src/server.py` `handle_get_file_content`, lines 166-201)

For each requested path the handler reads `repo_path / path_str` — the
`pathlib` join with no normalisation or containment check. -/

/-- `pathlib` `/` join (POSIX): an absolute right operand replaces the
base entirely; otherwise the entry is appended after a separator.
(Componentwise this agrees with `PurePosixPath` for every base: a
doubled separator carries no components.) -/
def pathlibJoin (base entry : String) : String :=
  if entry.startsWith "/" then entry
  else base ++ "/" ++ entry

/-- Split a path into its non-empty components, dropping `.`. -/
def splitSlashAux : List Char → List Char → List String
  | acc, [] => if acc.isEmpty then [] else [String.mk acc.reverse]
  | acc, c :: cs =>
    if c = '/' then
      if acc.isEmpty then splitSlashAux [] cs
      else String.mk acc.reverse :: splitSlashAux [] cs
    else splitSlashAux (c :: acc) cs

/-- Path components of a string path (empties and `.` dropped). -/
def pathComponents (s : String) : List String :=
  (splitSlashAux [] s.toList).filter (fun c => c ≠ ".")

/-- One step of lexical `..` resolution over a reversed-prefix stack. -/
def normStep (stack : List String) (c : String) : List String :=
  if c = ".." then stack.tail else c :: stack

/-- Lexical normalisation of an absolute path's components: `..` pops
(and is a no-op at the root, as in POSIX `/.. = /`). -/
def normComps (l : List String) : List String :=
  (l.foldl normStep []).reverse

/-- The spec's containment relation (§6: "reads/writes are restricted to
paths resolvable under the session's `repo_path`"): after lexical
normalisation, the repository's components are a prefix of the target's. -/
def resolvesUnder (repo target : String) : Prop :=
  normComps (pathComponents repo) <+: normComps (pathComponents target)

instance (repo target : String) : Decidable (resolvesUnder repo target) := by
  unfold resolvesUnder
  infer_instance

/-- `DEFAULT_WEIGHTS` from `src/constants.py`. -/
def defaultWeights : WeightsConfig := ⟨3/10, 4/10, 1/10, 2/10⟩

/-- `DEFAULT_HALT` from `src/constants.py`. -/
def defaultHalt : HaltConfig := ⟨12, 95/100, 3, 1⟩

/-- Default `EvalResult` used with `List.getD` when indexing history. -/
def dRes : EvalResult := ⟨none, none, none, none, 0, 0, 0, false, []⟩

/-- A boolean signal's `(weight, score)` contribution per the spec
(§4.3): 1 when ok, 0 otherwise, omitted when absent. -/
def boolSignal (ok : Option Bool) (weight : ℚ) : List (ℚ × ℚ) :=
  match ok with
  | some b => [(weight, if b then 1 else 0)]
  | none => []

/-- The tests signal per the spec (§4.3): `passed/total` when tests are
present with positive total, omitted otherwise. -/
def testSignal (tests : Option TestResults) (weight : ℚ) : List (ℚ × ℚ) :=
  match tests with
  | some t => if t.total > 0 then [(weight, (t.passed : ℚ) / (t.total : ℚ))] else []
  | none => []

/-- The performance signal per the spec (§4.3): `min(1, best_perf/value)`
when a positive `best_perf` is known, 1 on the first observation,
omitted when absent or non-positive. -/
def perfSignal (perf : Option PerfResults) (weight : ℚ) (best_perf : Option ℚ) :
    List (ℚ × ℚ) :=
  match perf with
  | some p =>
      if p.value > 0 then
        [(weight, match best_perf with
          | some b => if b > 0 then min 1 (b / p.value) else 1
          | none => 1)]
      else []
  | none => []

/-- The spec's `(w_i, s_i)` pairs over present signals (§4.3 of the
spec), in the spec's order. Stated from the spec's words for comparison
with `calculate_weighted_score`. -/
def presentSignals (ok_dq ok_lint : Option Bool) (tests : Option TestResults)
    (perf : Option PerfResults) (w : WeightsConfig) (best_perf : Option ℚ) :
    List (ℚ × ℚ) :=
  boolSignal ok_dq w.data_quality ++ testSignal tests w.test ++
    boolSignal ok_lint w.lint ++ perfSignal perf w.perf best_perf

/-- Agreement of optional values on present keys: wherever the original
carries a value, the round-tripped object carries the same value. -/
def optAgrees {α : Type} (orig round : Option α) : Prop :=
  ∀ v, orig = some v → round = some v

/-! ## Theorems -/

/-- C1: the claim says `run_evaluation` updates `best_perf` in place iff
the new value is smaller than the prior best OR the prior best is
absent, so that `best_perf` is the minimum observed `perf.value`. The
code never takes the "prior absent" branch: the assignment sits inside
`if session.best_perf is not None:`, so a fresh session that observes
parsed perf values 1.0 and then 0.5 still has `best_perf = None`
(the claim demands `0.5`). -/
theorem C1_best_perf_never_initialized :
    (runTrace ⟨defaultWeights, defaultHalt⟩ (9 / 10)
      [⟨none, none, none, some 1⟩, ⟨none, none, none, some (1 / 2)⟩]).best_perf = none := by
  with_unfolding_all rfl

/-- C3: `parse_performance_metric` on the three documented unit forms.
`"123.45 ms"` gives `0.12345` and `"2 min"` gives `120` as claimed, but
`"1.5s"` yields `None`: the seconds pattern is written with `\\b` inside
a raw string — a literal backslash-`b`, not a word boundary — so bare
`s`/`sec`/`seconds` suffixes never match (real arithmetic modelled
exactly over `ℚ`). -/
theorem C3_performance_parser_eval :
    parse_performance_metric "123.45 ms" = Except.ok (some (12345 / 100000)) ∧
    parse_performance_metric "1.5s" = Except.ok none ∧
    parse_performance_metric "2 min" = Except.ok (some 120) := by
  refine ⟨?_, ?_, ?_⟩ <;> with_unfolding_all rfl

/-- C4: the claim says `parse_pytest_output` returns a record or absent
on every input and never raises. On the input `"5"` (valid JSON decoding
to the integer 5) the membership test `"tests" in data` raises
`TypeError: argument of type 'int' is not iterable`, which the
`except (json.JSONDecodeError, KeyError)` clause does not catch. -/
theorem C4_pytest_parser_raises :
    parse_pytest_output "5" = Except.error PyErr.typeError := by
  with_unfolding_all rfl

/-- C7: `should_halt_iteration` checks success, then plateau, then
limit, in that fixed order; the first matching condition halts with a
single-element reasons list carrying that condition's message, and when
none matches it continues (halt `false`) with the continue message. -/
theorem C7_should_halt_priority (step : ℤ) (score ema_score : ℚ)
    (no_improve_streak : ℤ) (tests_passed : Bool) (max_steps : ℤ)
    (pass_threshold : ℚ) (patience_no_improve min_steps : ℤ) :
    should_halt_iteration step score ema_score no_improve_streak tests_passed
        max_steps pass_threshold patience_no_improve min_steps =
      if step ≥ min_steps ∧ tests_passed = true ∧ score ≥ pass_threshold then
        (true, [HaltMessage.success score pass_threshold])
      else if no_improve_streak ≥ patience_no_improve then
        (true, [HaltMessage.plateau no_improve_streak patience_no_improve])
      else if step ≥ max_steps then
        (true, [HaltMessage.limit max_steps])
      else
        (false, [HaltMessage.continueIter step max_steps score ema_score]) := by
  rfl

/-- C10: when the `halt` object of a `start` request is present but
omits any of `max`, `threshold`, `patience` (required by the schema) or
`min`, `_translate_start` does not reject the request: it fills the
defaults `max_steps=12`, `pass_threshold=0.95`, `patience_no_improve=3`,
`min_steps=1` for the omitted keys before handler invocation. -/
theorem C10_halt_defaults (args : StartShort) (h : HaltShort)
    (hh : args.halt = some h) :
    (translateStart args).halt =
      some ⟨h.max.getD 12, h.threshold.getD (95 / 100), h.patience.getD 3, h.min.getD 1⟩ := by
  simp [translateStart, hh]

/-- C10 witness: a `start` argument object whose `halt` omits all four
keys translates to the documented defaults. -/
theorem C10_witness :
    (translateStart ⟨some "/repo", none, none, none, none, none, none, none, none,
        some ⟨none, none, none, none⟩⟩).halt = some ⟨12, 95 / 100, 3, 1⟩ :=
  C10_halt_defaults _ ⟨none, none, none, none⟩ rfl

/-- C2 counterexample: the claim says no path outside the repository is
ever read. `handle_get_file_content` reads `repo_path / path_str` with
no containment check; for the entry `"/etc/passwd"` the `pathlib` join
discards `repo_path` entirely and the resulting target does not resolve
under the repository. -/
theorem C2_counterexample :
    pathlibJoin "/repo" "/etc/passwd" = "/etc/passwd" ∧
    ¬ resolvesUnder "/repo" (pathlibJoin "/repo" "/etc/passwd") := by
  exact ⟨by with_unfolding_all rfl, by with_unfolding_all decide⟩

/-- C5 counterexample: the claim says the result of
`calculate_weighted_score` always lies in [0,1] for all signal values
and non-negative weights. A tests signal with `passed > total` (which
the JSON branch of the pytest parser can produce, since `total` is read
independently from the decoded object) gives `s_test = 2` and a score
of 2 under weights (0,1,0,0). -/
theorem C5_counterexample :
    calculate_weighted_score none none (some ⟨2, 0, 1⟩) none ⟨0, 1, 0, 0⟩ none = 2 ∧
    ¬ calculate_weighted_score none none (some ⟨2, 0, 1⟩) none ⟨0, 1, 0, 0⟩ none ≤ 1 := by
  exact ⟨by with_unfolding_all rfl, by with_unfolding_all decide⟩

/-- C8 counterexample: the claim says `check_command_available` tests
the first whitespace-delimited token of the command. For
`"ls\t-l"` (tab-separated, no space character) the first whitespace
token is `"ls"`, yet the source's `" " in cmd` guard makes it probe the
whole string `"ls\t-l"`: against a PATH containing exactly `ls` it
returns `false` where the claim demands `true`. -/
theorem C8_counterexample :
    firstToken "ls\t-l" = some "ls" ∧
    (fun s => s == "ls") "ls" = true ∧
    check_command_available (fun s => s == "ls") "ls\t-l" = false := by
  refine ⟨?_, ?_, ?_⟩ <;> with_unfolding_all rfl

/-- C8 amended: `check_command_available` probes the PATH for the first
whitespace-delimited token only when the command string contains a
space character (and returns `false` when it has a space but no token);
otherwise it probes the entire unsplit string. The ~5 s timeout on the
`which` subprocess is unchanged by the amendment. -/
theorem C8_amended_token_choice (onPath : String → Bool) (cmd : String) :
    check_command_available onPath cmd =
      if cmd.contains ' ' then
        match firstToken cmd with
        | some n => onPath n
        | none => false
      else onPath cmd := by
  unfold check_command_available firstToken
  by_cases hc : cmd.contains ' ' <;> cases h : pySplitWs cmd <;> simp [hc, h]

/-- C9: translating short argument names to long names and applying the
inverse key mapping is the identity on known keys: every present `start`
key (including the nested `weights` and `halt` keys) keeps its value
through the round trip, and the `submit` round trip is the identity
outright. -/
theorem C9_translate_roundtrip (args : StartShort) (sargs : SubmitShort) :
    optAgrees args.repo (invStart (translateStart args)).repo ∧
    optAgrees args.dataQual (invStart (translateStart args)).dataQual ∧
    optAgrees args.test (invStart (translateStart args)).test ∧
    optAgrees args.lint (invStart (translateStart args)).lint ∧
    optAgrees args.bench (invStart (translateStart args)).bench ∧
    optAgrees args.timeout (invStart (translateStart args)).timeout ∧
    optAgrees args.ema (invStart (translateStart args)).ema ∧
    optAgrees args.notes (invStart (translateStart args)).notes ∧
    (∀ w, args.weights = some w →
      ∃ w2, (invStart (translateStart args)).weights = some w2 ∧
        optAgrees w.dataQual w2.dataQual ∧ optAgrees w.test w2.test ∧
        optAgrees w.lint w2.lint ∧ optAgrees w.perf w2.perf) ∧
    (∀ h, args.halt = some h →
      ∃ h2, (invStart (translateStart args)).halt = some h2 ∧
        optAgrees h.max h2.max ∧ optAgrees h.threshold h2.threshold ∧
        optAgrees h.patience h2.patience ∧ optAgrees h.min h2.min) ∧
    invSubmit (translateSubmit sargs) = sargs := by
  refine ⟨?_, ?_, ?_, ?_, ?_, ?_, ?_, ?_, ?_, ?_, rfl⟩
  · intro v hv; simp [invStart, translateStart, hv]
  · intro v hv; simp [invStart, translateStart, hv]
  · intro v hv; simp [invStart, translateStart, hv]
  · intro v hv; simp [invStart, translateStart, hv]
  · intro v hv; simp [invStart, translateStart, hv]
  · intro v hv; simp [invStart, translateStart, hv]
  · intro v hv; simp [invStart, translateStart, hv]
  · intro v hv; simp [invStart, translateStart, hv]
  · intro w hw
    refine ⟨⟨some (w.dataQual.getD (3 / 10)), some (w.test.getD (4 / 10)),
        some (w.lint.getD (1 / 10)), some (w.perf.getD (2 / 10))⟩,
      by simp [invStart, translateStart, hw], ?_, ?_, ?_, ?_⟩ <;>
      intro v hv <;> simp [hv]
  · intro h hh
    refine ⟨⟨some (h.max.getD 12), some (h.threshold.getD (95 / 100)),
        some (h.patience.getD 3), some (h.min.getD 1)⟩,
      by simp [invStart, translateStart, hh], ?_, ?_, ?_, ?_⟩ <;>
      intro v hv <;> simp [hv]

/-- C9 witness: a fully populated `start` object keeps `repo` through
the round trip, and a concrete `submit` object round-trips exactly. -/
theorem C9_witness :
    (invStart (translateStart ⟨some "/r", some "dq", some "t", some "l", some "b",
        some 60, some (1 / 2), some "n", some ⟨some 1, some 2, some 3, some 4⟩,
        some ⟨some 5, some (1 / 2), some 6, some 7⟩⟩)).repo = some "/r" ∧
    invSubmit (translateSubmit ⟨some "sid1", none, some "why"⟩) =
      ⟨some "sid1", none, some "why"⟩ := by
  obtain ⟨h1, -, -, -, -, -, -, -, -, -, hsub⟩ :=
    C9_translate_roundtrip ⟨some "/r", some "dq", some "t", some "l", some "b",
      some 60, some (1 / 2), some "n", some ⟨some 1, some 2, some 3, some 4⟩,
      some ⟨some 5, some (1 / 2), some 6, some 7⟩⟩ ⟨some "sid1", none, some "why"⟩
  exact ⟨h1 "/r" rfl, hsub⟩

/-- Splitting on `/` distributes over a separator: everything before the
separator and everything after split independently. -/
theorem splitSlashAux_slash (ys : List Char) :
    ∀ (xs : List Char) (acc : List Char),
      splitSlashAux acc (xs ++ '/' :: ys) = splitSlashAux acc xs ++ splitSlashAux [] ys := by
  intro xs
  induction xs with
  | nil =>
      intro acc
      by_cases h : acc.isEmpty <;> simp [splitSlashAux, h]
  | cons c cs ih =>
      intro acc
      by_cases hc : c = '/' <;> by_cases h : acc.isEmpty <;>
        simp [splitSlashAux, hc, h, ih]

/-- Components of a `/`-joined path are the two components lists
concatenated. -/
theorem pathComponents_join (a b : String) :
    pathComponents (a ++ "/" ++ b) = pathComponents a ++ pathComponents b := by
  unfold pathComponents
  have hl : (a ++ "/" ++ b).toList = a.toList ++ '/' :: b.toList := by
    show (a ++ "/" ++ b).data = a.data ++ '/' :: b.data
    simp [String.data_append]
  rw [hl, splitSlashAux_slash, List.filter_append]

/-- Folding `normStep` over components free of `..` just pushes them. -/
theorem foldl_normStep_no_dotdot (b : List String) (hb : ".." ∉ b) :
    ∀ st, List.foldl normStep st b = b.reverse ++ st := by
  induction b with
  | nil => intro st; rfl
  | cons c cs ih =>
      intro st
      have hc : c ≠ ".." := fun h => hb (h ▸ List.mem_cons_self c cs)
      have hcs : ".." ∉ cs := fun h => hb (List.mem_cons_of_mem _ h)
      simp [normStep, hc, ih hcs, List.append_assoc]

/-- Normalisation distributes over an appended `..`-free suffix. -/
theorem normComps_append (a b : List String) (hb : ".." ∉ b) :
    normComps (a ++ b) = normComps a ++ b := by
  unfold normComps
  rw [List.foldl_append, foldl_normStep_no_dotdot b hb]
  simp

/-- C2 amended: each requested entry is read from the `pathlib` join of
`repo_path` and the entry, with no containment check. Entries that are
relative and contain no `..` component always resolve under the
repository, but an absolute entry replaces `repo_path` entirely and
`..` components are not rejected, so reads are NOT restricted to paths
resolvable under the session's `repo_path`. -/
theorem C2_amended_relative_reads_stay_under_repo (repo entry : String)
    (habs : entry.startsWith "/" = false) (hdd : ".." ∉ pathComponents entry) :
    resolvesUnder repo (pathlibJoin repo entry) := by
  unfold pathlibJoin
  rw [habs]
  simp only [Bool.false_eq_true, if_false]
  unfold resolvesUnder
  rw [pathComponents_join, normComps_append _ _ hdd]
  exact List.prefix_append _ _

/-- C2 witness: a plain relative source path resolves under the
repository. -/
theorem C2_witness : resolvesUnder "/repo" (pathlibJoin "/repo" "src/main.py") :=
  C2_amended_relative_reads_stay_under_repo "/repo" "src/main.py"
    (by with_unfolding_all rfl) (by with_unfolding_all decide)

set_option maxHeartbeats 4000000 in
/-- `calculate_weighted_score` computes exactly the spec's weighted
average over present signals (0 when the present weights sum to 0). -/
theorem cws_eq_spec (ok_dq ok_lint : Option Bool) (tests : Option TestResults)
    (perf : Option PerfResults) (w : WeightsConfig) (best_perf : Option ℚ) :
    calculate_weighted_score ok_dq ok_lint tests perf w best_perf =
      if ((presentSignals ok_dq ok_lint tests perf w best_perf).map Prod.fst).sum = 0 then 0
      else ((presentSignals ok_dq ok_lint tests perf w best_perf).map
          (fun p => p.1 * p.2)).sum /
        ((presentSignals ok_dq ok_lint tests perf w best_perf).map Prod.fst).sum := by
  rcases ok_dq with _ | b1 <;> rcases tests with _ | t <;>
    rcases ok_lint with _ | b2 <;> rcases perf with _ | p <;>
    dsimp only [calculate_weighted_score, presentSignals, boolSignal, testSignal,
      perfSignal] <;>
    split_ifs <;>
    (try simp_all only [List.append_nil, List.nil_append, List.cons_append,
      List.map_append, List.map_cons, List.map_nil, List.sum_append, List.sum_cons,
      List.sum_nil, zero_add, add_zero, add_assoc]) <;>
    first
    | rfl
    | (exact absurd trivial (by assumption))

/-- Elements of a boolean signal chunk are bounded. -/
theorem boolSignal_bounds (ok : Option Bool) (wt : ℚ) (hw : 0 ≤ wt) :
    ∀ q ∈ boolSignal ok wt, 0 ≤ q.1 ∧ 0 ≤ q.2 ∧ q.2 ≤ 1 := by
  intro q hq
  cases ok with
  | none => simp [boolSignal] at hq
  | some b =>
      simp only [boolSignal, List.mem_singleton] at hq
      subst hq
      refine ⟨hw, ?_, ?_⟩ <;> cases b <;> norm_num

/-- Elements of the tests signal chunk are bounded when the counts are
well-formed (`0 ≤ passed ≤ total`). -/
theorem testSignal_bounds (tests : Option TestResults) (wt : ℚ) (hw : 0 ≤ wt)
    (ht : ∀ t, tests = some t → 0 ≤ t.passed ∧ t.passed ≤ t.total) :
    ∀ q ∈ testSignal tests wt, 0 ≤ q.1 ∧ 0 ≤ q.2 ∧ q.2 ≤ 1 := by
  intro q hq
  cases tests with
  | none => simp [testSignal] at hq
  | some t =>
      by_cases hpos : t.total > 0
      · simp only [testSignal, hpos, if_true, List.mem_singleton] at hq
        subst hq
        obtain ⟨hp0, hpt⟩ := ht t rfl
        have htotQ : (0 : ℚ) < (t.total : ℚ) := by exact_mod_cast hpos
        refine ⟨hw, div_nonneg (by exact_mod_cast hp0) htotQ.le, ?_⟩
        rw [div_le_one htotQ]
        exact_mod_cast hpt
      · simp [testSignal, hpos] at hq

/-- Elements of the performance signal chunk are bounded. -/
theorem perfSignal_bounds (perf : Option PerfResults) (wt : ℚ) (best_perf : Option ℚ)
    (hw : 0 ≤ wt) :
    ∀ q ∈ perfSignal perf wt best_perf, 0 ≤ q.1 ∧ 0 ≤ q.2 ∧ q.2 ≤ 1 := by
  intro q hq
  cases perf with
  | none => simp [perfSignal] at hq
  | some p =>
      by_cases hpos : p.value > 0
      · simp only [perfSignal, hpos, if_true, List.mem_singleton] at hq
        subst hq
        refine ⟨hw, ?_, ?_⟩
        · cases best_perf with
          | none => norm_num
          | some b =>
              by_cases hb : b > 0
              · simpa [hb] using
                  le_min (by norm_num : (0 : ℚ) ≤ 1) (div_nonneg hb.le hpos.le)
              · simp [hb]
        · cases best_perf with
          | none => norm_num
          | some b =>
              by_cases hb : b > 0
              · simp [hb]
              · simp [hb]
      · simp [perfSignal, hpos] at hq

/-- Every present signal has non-negative weight and a score in [0,1],
given well-formed test counts. -/
theorem presentSignals_bounds (ok_dq ok_lint : Option Bool) (tests : Option TestResults)
    (perf : Option PerfResults) (w : WeightsConfig) (best_perf : Option ℚ)
    (hw1 : 0 ≤ w.data_quality) (hw2 : 0 ≤ w.test) (hw3 : 0 ≤ w.lint) (hw4 : 0 ≤ w.perf)
    (ht : ∀ t, tests = some t → 0 ≤ t.passed ∧ t.passed ≤ t.total) :
    ∀ q ∈ presentSignals ok_dq ok_lint tests perf w best_perf,
      0 ≤ q.1 ∧ 0 ≤ q.2 ∧ q.2 ≤ 1 := by
  intro q hq
  unfold presentSignals at hq
  rcases List.mem_append.mp hq with hq | hqd
  · rcases List.mem_append.mp hq with hq | hqc
    · rcases List.mem_append.mp hq with hqa | hqb
      · exact boolSignal_bounds _ _ hw1 q hqa
      · exact testSignal_bounds _ _ hw2 ht q hqb
    · exact boolSignal_bounds _ _ hw3 q hqc
  · exact perfSignal_bounds _ _ _ hw4 q hqd

/-- A weighted average of `[0,1]` scores with non-negative weights lies
in `[0,1]` (and is 0 when the weights sum to 0). -/
theorem weighted_avg_bounds (l : List (ℚ × ℚ))
    (h : ∀ q ∈ l, 0 ≤ q.1 ∧ 0 ≤ q.2 ∧ q.2 ≤ 1) :
    0 ≤ (if (l.map Prod.fst).sum = 0 then (0 : ℚ)
         else (l.map (fun q => q.1 * q.2)).sum / (l.map Prod.fst).sum) ∧
    (if (l.map Prod.fst).sum = 0 then (0 : ℚ)
     else (l.map (fun q => q.1 * q.2)).sum / (l.map Prod.fst).sum) ≤ 1 := by
  split_ifs with hz
  · norm_num
  · have hW : 0 ≤ (l.map Prod.fst).sum := by
      apply List.sum_nonneg
      intro x hx
      obtain ⟨q, hq, rfl⟩ := List.mem_map.mp hx
      exact (h q hq).1
    have hWpos : 0 < (l.map Prod.fst).sum := lt_of_le_of_ne hW (Ne.symm hz)
    have hS : 0 ≤ (l.map (fun q => q.1 * q.2)).sum := by
      apply List.sum_nonneg
      intro x hx
      obtain ⟨q, hq, rfl⟩ := List.mem_map.mp hx
      exact mul_nonneg (h q hq).1 (h q hq).2.1
    have hSW : (l.map (fun q => q.1 * q.2)).sum ≤ (l.map Prod.fst).sum := by
      apply List.sum_le_sum
      intro q hq
      calc q.1 * q.2 ≤ q.1 * 1 := mul_le_mul_of_nonneg_left (h q hq).2.2 (h q hq).1
        _ = q.1 := mul_one _
    exact ⟨div_nonneg hS hW, (div_le_one hWpos).mpr hSW⟩

/-- C5 amended: for non-negative weights, `calculate_weighted_score`
always equals the spec's `Σ(w·s)/Σw` over present signals (0 when the
present weights sum to 0, in particular with no present signals), and —
provided every present tests signal has well-formed counts
`0 ≤ passed ≤ total` — the result lies in [0,1]. (Without that proviso
the [0,1] bound fails: see the counterexample.) -/
theorem C5_amended_weighted_score (ok_dq ok_lint : Option Bool) (tests : Option TestResults)
    (perf : Option PerfResults) (w : WeightsConfig) (best_perf : Option ℚ)
    (hw1 : 0 ≤ w.data_quality) (hw2 : 0 ≤ w.test) (hw3 : 0 ≤ w.lint) (hw4 : 0 ≤ w.perf)
    (ht : ∀ t, tests = some t → 0 ≤ t.passed ∧ t.passed ≤ t.total) :
    calculate_weighted_score ok_dq ok_lint tests perf w best_perf =
      (if ((presentSignals ok_dq ok_lint tests perf w best_perf).map Prod.fst).sum = 0 then 0
       else ((presentSignals ok_dq ok_lint tests perf w best_perf).map
           (fun q => q.1 * q.2)).sum /
         ((presentSignals ok_dq ok_lint tests perf w best_perf).map Prod.fst).sum) ∧
    0 ≤ calculate_weighted_score ok_dq ok_lint tests perf w best_perf ∧
    calculate_weighted_score ok_dq ok_lint tests perf w best_perf ≤ 1 ∧
    (presentSignals ok_dq ok_lint tests perf w best_perf = [] →
      calculate_weighted_score ok_dq ok_lint tests perf w best_perf = 0) := by
  have heq := cws_eq_spec ok_dq ok_lint tests perf w best_perf
  have hb := presentSignals_bounds ok_dq ok_lint tests perf w best_perf hw1 hw2 hw3 hw4 ht
  obtain ⟨h0, h1⟩ := weighted_avg_bounds _ hb
  refine ⟨heq, heq ▸ h0, heq ▸ h1, ?_⟩
  intro hnil
  rw [heq, hnil]
  simp

/-- C5 witness: a concrete well-formed evaluation (data quality ok,
tests 3/4 passed) scores within [0,1] under the default weights. -/
theorem C5_witness :
    0 ≤ calculate_weighted_score (some true) none (some ⟨3, 1, 4⟩) none defaultWeights none ∧
    calculate_weighted_score (some true) none (some ⟨3, 1, 4⟩) none defaultWeights none ≤ 1 := by
  have h := C5_amended_weighted_score (some true) none (some ⟨3, 1, 4⟩) none defaultWeights none
    (by norm_num [defaultWeights]) (by norm_num [defaultWeights])
    (by norm_num [defaultWeights]) (by norm_num [defaultWeights])
    (by intro t hteq; cases hteq; exact ⟨by norm_num, by norm_num⟩)
  exact ⟨h.2.1, h.2.2.1⟩

/-- `run_evaluation` appends exactly one result to the history. -/
theorem evalStep_fst_history (s : SessionState) (x : EvalInput) :
    (evalStep s x).1.history = s.history ++ [(evalStep s x).2] := rfl

/-- `run_evaluation` increments the step by one. -/
theorem evalStep_fst_step (s : SessionState) (x : EvalInput) :
    (evalStep s x).1.step = s.step + 1 := rfl

/-- The session's EMA after `run_evaluation` is the appended result's. -/
theorem evalStep_fst_ema (s : SessionState) (x : EvalInput) :
    (evalStep s x).1.ema_score = (evalStep s x).2.ema_score := rfl

/-- `run_evaluation` does not change `ema_alpha`. -/
theorem evalStep_fst_alpha (s : SessionState) (x : EvalInput) :
    (evalStep s x).1.ema_alpha = s.ema_alpha := rfl

/-- The appended result's EMA follows `update_ema_score` with the
previous EMA taken to be the current score on the first step. -/
theorem evalStep_snd_ema (s : SessionState) (x : EvalInput) :
    (evalStep s x).2.ema_score =
      update_ema_score (evalStep s x).2.score
        (if s.step > 0 then s.ema_score else (evalStep s x).2.score) s.ema_alpha := rfl

/-- Unfolding one trailing evaluation of a trace. -/
theorem runTrace_append_singleton (cfg : SessionConfig) (α : ℚ) (l : List EvalInput)
    (x : EvalInput) :
    runTrace cfg α (l ++ [x]) = (evalStep (runTrace cfg α l) x).1 := by
  simp [runTrace, List.foldl_append]

/-- Trace invariant: the smoothing factor is preserved, the step count
equals the history length, the session EMA is the last recorded EMA,
and every recorded EMA obeys the spec's recurrence
(`ema₁ = score₁`, `emaᵢ = α·scoreᵢ + (1−α)·emaᵢ₋₁`). -/
theorem runTrace_inv (cfg : SessionConfig) (α : ℚ) (inputs : List EvalInput) :
    (runTrace cfg α inputs).ema_alpha = α ∧
    (runTrace cfg α inputs).step = ((runTrace cfg α inputs).history.length : ℤ) ∧
    ((runTrace cfg α inputs).history ≠ [] →
      (runTrace cfg α inputs).ema_score =
        ((runTrace cfg α inputs).history.getD
          ((runTrace cfg α inputs).history.length - 1) dRes).ema_score) ∧
    (∀ i, i < (runTrace cfg α inputs).history.length →
      ((runTrace cfg α inputs).history.getD i dRes).ema_score =
        if i = 0 then ((runTrace cfg α inputs).history.getD 0 dRes).score
        else α * ((runTrace cfg α inputs).history.getD i dRes).score +
          (1 - α) * ((runTrace cfg α inputs).history.getD (i - 1) dRes).ema_score) := by
  induction inputs using List.reverseRecOn with
  | nil =>
      refine ⟨rfl, rfl, ?_, ?_⟩
      · intro h; exact absurd rfl h
      · intro i hi; simp [runTrace, initSession] at hi
  | append_singleton l x ih =>
      obtain ⟨hα, hstep, hlast, hrec⟩ := ih
      rw [runTrace_append_singleton]
      set s := runTrace cfg α l with hs
      set r := (evalStep s x).2 with hr
      have hhist : (evalStep s x).1.history = s.history ++ [r] := evalStep_fst_history s x
      have hlen : (evalStep s x).1.history.length = s.history.length + 1 := by
        rw [hhist]; simp
      have hgetr : ((evalStep s x).1.history.getD s.history.length dRes) = r := by
        rw [hhist]
        rw [List.getD_append_right s.history [r] dRes s.history.length (le_refl _)]
        simp
      have hgetl : ∀ i, i < s.history.length →
          ((evalStep s x).1.history.getD i dRes) = s.history.getD i dRes := by
        intro i hi
        rw [hhist]
        exact List.getD_append _ _ _ _ hi
      refine ⟨?_, ?_, ?_, ?_⟩
      · rw [evalStep_fst_alpha, hα]
      · rw [evalStep_fst_step, hlen, hstep]; push_cast; ring
      · intro _
        rw [evalStep_fst_ema, hlen]
        simpa using congrArg EvalResult.ema_score hgetr.symm
      · intro i hi
        rw [hlen] at hi
        rcases Nat.lt_succ_iff_lt_or_eq.mp hi with hlt | heq
        · -- an index into the old history: the recurrence is inherited
          have h0 : (0 : ℕ) < s.history.length := Nat.pos_of_ne_zero (by
            intro hz; rw [hz] at hlt; exact Nat.not_lt_zero _ hlt)
          rw [hgetl i hlt]
          rcases Nat.eq_zero_or_pos i with hi0 | hipos
          · subst hi0
            rw [hgetl 0 h0]
            simpa using hrec 0 h0
          · have him : i - 1 < s.history.length := lt_of_le_of_lt (Nat.sub_le i 1) hlt
            rw [hgetl (i - 1) him]
            simpa [Nat.pos_iff_ne_zero.mp hipos] using hrec i hlt
        · -- the new index: the recurrence comes from update_ema_score
          subst heq
          rw [hgetr]
          have hema : r.ema_score =
              update_ema_score r.score (if s.step > 0 then s.ema_score else r.score)
                s.ema_alpha := evalStep_snd_ema s x
          rcases Nat.eq_zero_or_pos s.history.length with hz | hpos
          · -- first evaluation: step 0, so ema = α·score + (1−α)·score = score
            have hstep0 : s.step = 0 := by rw [hstep, hz]; rfl
            have hnot : ¬ s.step > 0 := by rw [hstep0]; exact lt_irrefl 0
            have hget0 : (evalStep s x).1.history.getD 0 dRes = r := by
              rw [← hz]; exact hgetr
            rw [if_pos hz, hget0, hema, if_neg hnot, update_ema_score]
            ring
          · -- later evaluation: previous ema is the last recorded one
            have hstep_pos : s.step > 0 := by
              rw [hstep]; exact_mod_cast hpos
            have hne : s.history ≠ [] := by
              intro hnil; rw [hnil] at hpos; exact Nat.lt_irrefl 0 hpos
            have hlen_ne : s.history.length ≠ 0 := Nat.pos_iff_ne_zero.mp hpos
            rw [if_neg hlen_ne, hema, if_pos hstep_pos, hα, update_ema_score,
              hgetl (s.history.length - 1) (Nat.sub_lt hpos Nat.one_pos), ← hlast hne]
  -- end of induction

/-- C6: for every reachable session, the first recorded evaluation has
`ema_score = score`, and every later evaluation `i` has
`ema_score = α·score + (1−α)·(previous ema_score)` — the spec's EMA
recurrence, exact over rationals. (Indices are 0-based here; the claim's
`history[1]` is `getD 0`.) -/
theorem C6_ema_recurrence (cfg : SessionConfig) (α : ℚ) (inputs : List EvalInput)
    (i : ℕ) (hi : i < (runTrace cfg α inputs).history.length) :
    ((runTrace cfg α inputs).history.getD i dRes).ema_score =
      if i = 0 then ((runTrace cfg α inputs).history.getD 0 dRes).score
      else α * ((runTrace cfg α inputs).history.getD i dRes).score +
        (1 - α) * ((runTrace cfg α inputs).history.getD (i - 1) dRes).ema_score :=
  (runTrace_inv cfg α inputs).2.2.2 i hi

/-- C6 witness: on a concrete two-evaluation trace the second recorded
EMA equals `α·score₂ + (1−α)·ema₁`. -/
theorem C6_witness :
    ((runTrace ⟨defaultWeights, defaultHalt⟩ (9 / 10)
        [⟨some true, none, none, none⟩, ⟨some false, none, none, none⟩]).history.getD 1
      dRes).ema_score =
      (9 / 10) * ((runTrace ⟨defaultWeights, defaultHalt⟩ (9 / 10)
          [⟨some true, none, none, none⟩, ⟨some false, none, none, none⟩]).history.getD 1
        dRes).score +
      (1 - 9 / 10) * ((runTrace ⟨defaultWeights, defaultHalt⟩ (9 / 10)
          [⟨some true, none, none, none⟩, ⟨some false, none, none, none⟩]).history.getD 0
        dRes).ema_score := by
  have h := C6_ema_recurrence ⟨defaultWeights, defaultHalt⟩ (9 / 10)
    [⟨some true, none, none, none⟩, ⟨some false, none, none, none⟩] 1
    (by with_unfolding_all decide)
  simpa using h

end TRM
